import Mathlib

/-!
Verification of the schema-inference and aggregation engine of the
FinanceDept dashboard (`src/components/Dashboard.tsx`).

The engine is shallowly embedded: rows are ordered association lists from
column name to a scalar value (string, number, or null — the shapes JSON
delivers), JavaScript numbers are modelled as `Option ℚ` where `none`
stands for NaN (the only non-finite value the pipeline can produce from
scalar inputs), and each helper of the `analytics` memo in `Dashboard.tsx`
becomes an executable Lean definition with the same name where possible.
-/

set_option allowUnsafeReducibility true

namespace FinanceDept

attribute [local semireducible] Rat.add Rat.sub Rat.mul Rat.inv Rat.div Rat.neg

/-- A scalar cell value of a row, as delivered by the JSON data source:
a string, a (finite) number, or null.  `DataRow` values in the source are
`[key: string]: any`, populated from JSON. -/
inductive Value where
  | str (s : String)
  | num (q : ℚ)
  | null
deriving DecidableEq, Repr

/-- A row: an ordered association list from column name to value, modelling
a JS object in its key-iteration order. -/
abbrev Row := List (String × Value)

/-- A JavaScript number as produced by the pipeline: `none` models NaN,
`some q` a finite value.  (Rows themselves carry only finite numbers,
since they come from JSON; NaN arises only from coercion of non-numeric
strings.) -/
abbrev JSNum := Option ℚ

/-- JS addition: NaN propagates. -/
def jadd : JSNum → JSNum → JSNum
  | some x, some y => some (x + y)
  | _, _ => none

/-- JS multiplication: NaN propagates.  (Inputs `0 * NaN` also give NaN
in JS, matching this model.) -/
def jmul : JSNum → JSNum → JSNum
  | some x, some y => some (x * y)
  | _, _ => none

/-- JS division: NaN propagates.  The zero-denominator case (JS gives
±Infinity) is mapped to `none`; in the source it is unreachable because
division only happens under a `revenue > 0` guard. -/
def jdiv : JSNum → JSNum → JSNum
  | some x, some y => if y = 0 then none else some (x / y)
  | _, _ => none

/-- Value of the digit list (most significant first), assuming digits. -/
def natOfDigits (l : List Char) : ℕ :=
  l.foldl (fun acc c => 10 * acc + (c.toNat - 48)) 0

/-- Parse an unsigned decimal numeral `digits [. digits]` as JS `Number`
does (`"5."` is 5, `".5"` is 0.5, a lone `"."` or empty input is NaN,
returned as `none`). -/
def parseUnsigned (l : List Char) : Option ℚ :=
  let ip := l.takeWhile Char.isDigit
  let rest := l.dropWhile Char.isDigit
  match rest with
  | [] => if ip.isEmpty then none else some (natOfDigits ip)
  | '.' :: frac =>
      if frac.all Char.isDigit && !(ip.isEmpty && frac.isEmpty) then
        some ((natOfDigits ip : ℚ) + (natOfDigits frac : ℚ) / ((10 : ℚ) ^ frac.length))
      else none
  | _ => none

/-- ASCII whitespace, the part of the JS `trim` character class the data
model exercises. -/
def isWS (c : Char) : Bool := c == ' ' || c == '\t' || c == '\n' || c == '\r'

/-- Trim leading and trailing whitespace from a character list. -/
def trimChars (l : List Char) : List Char :=
  ((l.dropWhile isWS).reverse.dropWhile isWS).reverse

/-- JS `Number(string)`: trimmed-empty is 0, otherwise an optional sign and
a decimal numeral; anything else is NaN (`none`).  (The exotic JS forms —
hex, exponent, `"Infinity"` — are not exercised by the dashboard's data
model and are mapped to NaN.) -/
def parseNum (s : String) : Option ℚ :=
  match trimChars s.data with
  | [] => some 0
  | '-' :: rest => (parseUnsigned rest).map (fun q => -q)
  | '+' :: rest => parseUnsigned rest
  | l => parseUnsigned l

/-- JS `Number(v)` on a scalar: numbers pass through, `null` coerces to 0,
strings are parsed (NaN as `none`). -/
def toNumJS : Value → JSNum
  | Value.num q => some q
  | Value.null => some 0
  | Value.str s => parseNum s

/-- JS `Number(x) || 0` applied to an optional cell (`none` models the
`undefined` of a missing column): NaN — and 0 itself — collapse to 0, so
the result is always a finite rational aggregate-safe value. -/
def numOr0 (o : Option Value) : ℚ := ((o.bind toNumJS).getD 0)

/-- JS truthiness of a scalar: `0`, the empty string and `null` are falsy. -/
def truthy : Value → Bool
  | Value.num q => if q = 0 then false else true
  | Value.str s => !s.data.isEmpty
  | Value.null => false

/-- Decimal rendering of a rational.  Integers render exactly as JS
`String(number)` does; non-integral values (never exercised by a claim,
since category cells in the spec are strings) are rendered as `num/den`. -/
def ratToString (q : ℚ) : String :=
  let mag := if q.den = 1 then toString q.num.natAbs
             else toString q.num.natAbs ++ "/" ++ toString q.den
  if q.num < 0 then "-" ++ mag else mag

/-- JS `String(v)` on a scalar. -/
def jsToString : Value → String
  | Value.str s => s
  | Value.num q => ratToString q
  | Value.null => "null"

/-- Does `l` start with `pat`? -/
def startsWithL : List Char → List Char → Bool
  | _, [] => true
  | [], _ :: _ => false
  | a :: as, b :: bs => a == b && startsWithL as bs

/-- Substring containment on character lists (JS `String.prototype.includes`). -/
def containsL : List Char → List Char → Bool
  | [], pat => pat.isEmpty
  | a :: as, pat => startsWithL (a :: as) pat || containsL as pat

/-- JS `s.includes(pat)`. -/
def strIncludes (s pat : String) : Bool := containsL s.data pat.data

/-- JS `s.toLowerCase()` (ASCII case mapping). -/
def lowerStr (s : String) : String := ⟨s.data.map Char.toLower⟩

/-- `Object.keys(row)`: the column names in iteration order. -/
def rowKeys (row : Row) : List String := row.map Prod.fst

/-- `row[k]`: `none` models JS `undefined` for a missing column. -/
def getVal (row : Row) (k : String) : Option Value :=
  match row with
  | [] => none
  | (k1, v) :: rest => if k1 = k then some v else getVal rest k

/-- `findKey` from `Dashboard.tsx`: lowercase all column names, pick the
first candidate substring contained in at least one of them, then return
the first actual (case-preserving) column name whose lowercase form
contains that candidate. -/
def findKey (row : Row) (cands : List String) : Option String :=
  let lowKeys := (rowKeys row).map lowerStr
  match cands.find? (fun c => lowKeys.any (fun k => strIncludes k c)) with
  | none => none
  | some found => (rowKeys row).find? (fun k => strIncludes (lowerStr k) found)

/-- The fixed 8-entry chart palette `COLORS` from `Dashboard.tsx`. -/
def COLORS : List String :=
  ["#6366f1", "#ec4899", "#10b981", "#f59e0b", "#06b6d4", "#8b5cf6", "#a855f7", "#ef4444"]

/-- `COLORS[i % COLORS.length]`. -/
def colorAt (i : ℕ) : String := COLORS.getD (i % COLORS.length) ""

/-- The six resolved role keys (`deptKey`, `revKey`, `expKey`, `profitKey`,
`dateKey`, `idKey` in `analytics`). -/
structure Keys where
  deptKey : String
  revKey : String
  expKey : String
  profitKey : String
  dateKey : String
  idKey : String
deriving DecidableEq, Repr

/-- Role-key resolution against the sample row, with the literal fallbacks
of `Dashboard.tsx` lines 137–142 (note the fallbacks `"department"`,
`"expenses"`, `"created_at"`, which are not each role's own name). -/
def inferKeys (sample : Row) : Keys :=
  ⟨(findKey sample ["department", "category", "dept", "group"]).getD "department",
   (findKey sample ["revenue", "sales", "amount", "total", "price"]).getD "revenue",
   (findKey sample ["expense", "cost", "spending"]).getD "expenses",
   (findKey sample ["profit", "net", "margin"]).getD "profit",
   (findKey sample ["created_at", "date", "time"]).getD "created_at",
   (findKey sample ["id", "order", "name"]).getD "id"⟩

/-- Gregorian leap year. -/
def isLeap (y : ℕ) : Bool := y % 4 == 0 && (y % 100 != 0 || y % 400 == 0)

/-- Days in 1-based month `m` of year `y`. -/
def daysInMonth (y m : ℕ) : ℕ :=
  if m == 2 then (if isLeap y then 29 else 28)
  else if m == 4 || m == 6 || m == 9 || m == 11 then 30
  else 31

/-- A 4-digit numeral. -/
def parse4 (t : List Char) : Option ℕ :=
  if t.length == 4 && t.all Char.isDigit then some (natOfDigits t) else none

/-- A 2-digit numeral. -/
def parse2 (t : List Char) : Option ℕ :=
  if t.length == 2 && t.all Char.isDigit then some (natOfDigits t) else none

/-- Split a character list on the separator `'-'`. -/
def splitDash : List Char → List (List Char)
  | [] => [[]]
  | c :: cs =>
    match splitDash cs with
    | [] => [[]]
    | h :: t => if c = '-' then [] :: h :: t else (c :: h) :: t

/-- ISO `YYYY-MM` / `YYYY-MM-DD` date parsing, returning (year,
zero-based month) — the two components `analytics` reads off the parsed
`Date` (`getFullYear`, `getMonth`, with the timezone modelled as UTC).
Other textual formats JS's `Date` may accept are not exercised by the
dashboard's data model and are mapped to invalid. -/
def parseISO (s : String) : Option (ℕ × ℕ) :=
  match splitDash s.data with
  | [ys, ms] =>
    match parse4 ys, parse2 ms with
    | some y, some m => if 1 ≤ m ∧ m ≤ 12 then some (y, m - 1) else none
    | _, _ => none
  | [ys, ms, ds] =>
    match parse4 ys, parse2 ms, parse2 ds with
    | some y, some m, some d =>
        if 1 ≤ m ∧ m ≤ 12 ∧ 1 ≤ d ∧ d ≤ daysInMonth y m then some (y, m - 1) else none
    | _, _, _ => none
  | _ => none

/-- `new Date(row[dateKey])` followed by the `isNaN(d.getTime())` validity
check: a missing cell (`undefined`) is invalid, `null` coerces to the
epoch (January 1970), a string is ISO-parsed.  A raw numeric timestamp —
accepted by JS, unexercised by the dashboard's data model — is mapped to
invalid. -/
def parseDate : Option Value → Option (ℕ × ℕ)
  | none => none
  | some (Value.str s) => parseISO s
  | some Value.null => some (1970, 0)
  | some (Value.num _) => none

/-- The twelve short month names of `toLocaleString('default', month short)`
in the `en-US` default locale. -/
def monthNames : List String :=
  ["Jan", "Feb", "Mar", "Apr", "May", "Jun", "Jul", "Aug", "Sep", "Oct", "Nov", "Dec"]

/-- 2-digit zero-padded numeral. -/
def twoDigits (n : ℕ) : String := if n < 10 then "0" ++ toString n else toString n

/-- The `'Mon YY'` bucket label produced by
`d.toLocaleString('default', month short, year 2-digit)`. -/
def monthLabel (y m : ℕ) : String := monthNames.getD m "" ++ " " ++ twoDigits (y % 100)

/-- The month label and `sortKey = getFullYear()*100 + getMonth()` of a
row, with the `'Unknown'` / 0 fallback for an invalid date. -/
def monthInfoOf (keys : Keys) (row : Row) : String × ℤ :=
  match parseDate (getVal row keys.dateKey) with
  | some (y, m) => (monthLabel y m, (y : ℤ) * 100 + (m : ℤ))
  | none => ("Unknown", 0)

/-- `const rev = Number(row[revKey]) || 0`. -/
def revOf (keys : Keys) (row : Row) : ℚ := numOr0 (getVal row keys.revKey)

/-- `const exp = Number(row[expKey]) || 0`. -/
def expOf (keys : Keys) (row : Row) : ℚ := numOr0 (getVal row keys.expKey)

/-- `row[profitKey] !== undefined ? Number(row[profitKey]) : (rev - exp)` —
note the absence of a `|| 0` guard: a present profit cell is coerced
as-is, NaN included. -/
def profitOf (keys : Keys) (row : Row) : JSNum :=
  match getVal row keys.profitKey with
  | some v => toNumJS v
  | none => some (revOf keys row - expOf keys row)

/-- `String(row[deptKey] || 'Unassigned')`: any falsy cell — missing,
null, empty string, or the number 0 — collapses to the sentinel. -/
def deptNameOf (keys : Keys) (row : Row) : String :=
  match getVal row keys.deptKey with
  | some v => if truthy v then jsToString v else "Unassigned"
  | none => "Unassigned"

/-- One monthly accumulator entry of `monthlyData`. -/
structure MonthlyRec where
  month : String
  revenue : ℚ
  profit : JSNum
  sortKey : ℤ
deriving DecidableEq, Repr

/-- One category accumulator entry of `deptStats`. -/
structure DeptRec where
  name : String
  revenue : ℚ
  expenses : ℚ
  profit : JSNum
deriving DecidableEq, Repr

/-- A `deptChartData` entry: a `DeptRec` with the derived margin and the
assigned palette color (`fill`). -/
structure DeptChartRec where
  name : String
  revenue : ℚ
  expenses : ℚ
  profit : JSNum
  margin : JSNum
  fill : String
deriving DecidableEq, Repr

/-- Fold one row into `monthlyData`: create the bucket on first sight
(keeping that first row's `sortKey`), then accumulate revenue and profit.
The association list keeps JS-object insertion order.  The exact-key
embedding is faithful for this accumulator because its keys are only the
labels `'Mon YY'` (which contain a space) and `'Unknown'`, never an
`Object.prototype` property name — unlike `deptStats`, see `addDept`. -/
def addMonth (mL : String) (sk : ℤ) (rev : ℚ) (p : JSNum) :
    List MonthlyRec → List MonthlyRec
  | [] => [⟨mL, rev, p, sk⟩]
  | m :: ms =>
    if m.month = mL then ⟨m.month, m.revenue + rev, jadd m.profit p, m.sortKey⟩ :: ms
    else m :: addMonth mL sk rev p ms

/-- The own property names of `Object.prototype`, all of which hold
truthy values (methods, plus the `__proto__` accessor).  On a plain
object with no own property `key`, the lookup `obj[key]` returns these
inherited values for exactly these names, and `undefined` otherwise. -/
def protoKeys : List String :=
  ["constructor", "hasOwnProperty", "isPrototypeOf", "propertyIsEnumerable",
   "toLocaleString", "toString", "valueOf", "__proto__",
   "__defineGetter__", "__defineSetter__", "__lookupGetter__", "__lookupSetter__"]

/-- Fold one row into `deptStats`, a plain JS object literal: if an own
bucket for the category exists, accumulate into it.  Otherwise the guard
`if (!deptStats[dept])` decides creation: for a category named after an
`Object.prototype` property the lookup returns the truthy inherited
value, so no own bucket is created and the subsequent `+=` lands on the
shared prototype object, which `Object.values` never enumerates — the
row's contribution is silently dropped from the aggregate.  For any
other name the lookup yields `undefined` (falsy) and a fresh bucket is
created in insertion order. -/
def addDept (n : String) (rev exp : ℚ) (p : JSNum) : List DeptRec → List DeptRec
  | [] => if n ∈ protoKeys then [] else [⟨n, rev, exp, p⟩]
  | d :: ds =>
    if d.name = n then ⟨d.name, d.revenue + rev, d.expenses + exp, jadd d.profit p⟩ :: ds
    else d :: addDept n rev exp p ds

/-- The body of the `data.forEach` loop of `analytics`: fold one row into
both accumulators. -/
def stepRow (keys : Keys) (acc : List MonthlyRec × List DeptRec) (row : Row) :
    List MonthlyRec × List DeptRec :=
  let rev := revOf keys row
  let exp := expOf keys row
  let p := profitOf keys row
  let mi := monthInfoOf keys row
  (addMonth mi.1 mi.2 rev p acc.1, addDept (deptNameOf keys row) rev exp p acc.2)

/-- The full accumulation pass over all rows. -/
def aggregates (keys : Keys) (rows : List Row) : List MonthlyRec × List DeptRec :=
  rows.foldl (stepRow keys) ([], [])

/-- The monthly chart comparator relation: ascending `sortKey`
(`(a, b) => a.sortKey - b.sortKey` under a stable sort). -/
def mLE (a b : MonthlyRec) : Prop := a.sortKey ≤ b.sortKey

instance : DecidableRel mLE := fun a b => Int.decLe _ _

/-- Strict lexicographic (codepoint) order on character lists. -/
def lexLt : List Char → List Char → Bool
  | [], [] => false
  | [], _ :: _ => true
  | _ :: _, [] => false
  | a :: as, b :: bs =>
    if a.toNat = b.toNat then lexLt as bs else decide (a.toNat < b.toNat)

/-- Model of `a.localeCompare(b) ≤ 0` for the default locale on the ASCII
names the dashboard handles: compare case-insensitively, breaking ties
lowercase-first. -/
def locLE (a b : String) : Prop :=
  lexLt (lowerStr a).data (lowerStr b).data = true ∨
    ((lowerStr a).data = (lowerStr b).data ∧ lexLt a.data b.data = false)

instance : DecidableRel locLE := fun _ _ => inferInstanceAs (Decidable (_ ∨ _))

/-- The category comparator relation: ascending `name.localeCompare`. -/
def dLE (a b : DeptRec) : Prop := locLE a.name b.name

instance : DecidableRel dLE := fun a b => inferInstanceAs (Decidable (locLE a.name b.name))

/-- The top-expenses comparator relation: descending `expenses`
(`(a, b) => b.expenses - a.expenses` under a stable sort). -/
def eGE (a b : DeptChartRec) : Prop := b.expenses ≤ a.expenses

instance : DecidableRel eGE := fun a b => inferInstanceAs (Decidable (b.expenses ≤ a.expenses))

/-- Comparator for the top-orders sort: descending derived profit, with
NaN compared as equal (ECMAScript's `SortCompare` maps a NaN comparator
result to ±0). -/
def topGEb (a b : Row × JSNum) : Bool :=
  match a.2, b.2 with
  | some x, some y => decide (y ≤ x)
  | _, _ => true

/-- The top-orders comparator relation. -/
def topGE (a b : Row × JSNum) : Prop := topGEb a b = true

instance : DecidableRel topGE := fun a b => instDecidableEqBool _ _

/-- `deptChartData`'s `.map((d, index) => ...)`: attach the margin
(`d.revenue > 0 ? (d.profit / d.revenue) * 100 : 0`) and the color
`COLORS[index % COLORS.length]`, counting indices from `i`. -/
def attachColors : ℕ → List DeptRec → List DeptChartRec
  | _, [] => []
  | i, d :: ds =>
    ⟨d.name, d.revenue, d.expenses, d.profit,
      (if 0 < d.revenue then jmul (jdiv d.profit (some d.revenue)) (some 100) else some 0),
      colorAt i⟩ :: attachColors (i + 1) ds

/-- The value of the `analytics` memo: resolved keys, both sorted
aggregates, and the two ranking views. -/
structure Analytics where
  keys : Keys
  monthlyChartData : List MonthlyRec
  deptChartData : List DeptChartRec
  expensesByDept : List DeptChartRec
  topOrders : List (Row × JSNum)
deriving DecidableEq, Repr

/-- `analytics` from `Dashboard.tsx`: `none` for an empty row set
(the memo returns `null`), otherwise the keys are inferred from the first
row, the two accumulators are folded, the monthly aggregate is sorted by
`sortKey`, the category aggregate is sorted by name and given margins and
colors, and the two ranking views are derived (stable sorts, truncation
to 5 and 10). -/
def analytics (rows : List Row) : Option Analytics :=
  match rows with
  | [] => none
  | r0 :: rest =>
    let keys := inferKeys r0
    let agg := aggregates keys (r0 :: rest)
    let deptChart := attachColors 0 (List.insertionSort dLE agg.2)
    some ⟨keys,
      List.insertionSort mLE agg.1,
      deptChart,
      (List.insertionSort eGE deptChart).take 5,
      (List.insertionSort topGE ((r0 :: rest).map (fun r => (r, profitOf keys r)))).take 10⟩

/-- The revenue accumulated so far under category `n` (0 if the bucket
does not exist yet). -/
def bucketRev (acc : List DeptRec) (n : String) : ℚ :=
  match acc.find? (fun d => d.name == n) with
  | some d => d.revenue
  | none => 0

/-- The expenses accumulated so far under category `n` (0 if the bucket
does not exist yet). -/
def bucketExp (acc : List DeptRec) (n : String) : ℚ :=
  match acc.find? (fun d => d.name == n) with
  | some d => d.expenses
  | none => 0

/-- First row of the spec's end-to-end example. -/
def exRow1 : Row :=
  [("revenue", Value.num 100), ("cost", Value.num 40), ("department", Value.str "Sales"),
   ("created_at", Value.str "2024-01-05")]

/-- Second row of the spec's end-to-end example. -/
def exRow2 : Row :=
  [("revenue", Value.num 200), ("cost", Value.num 50), ("department", Value.str "Sales"),
   ("created_at", Value.str "2024-02-10")]

/-- Third row of the spec's end-to-end example. -/
def exRow3 : Row :=
  [("revenue", Value.num 50), ("cost", Value.num 60), ("department", Value.str "Marketing"),
   ("created_at", Value.str "2024-01-20")]

/-- The spec's end-to-end example input. -/
def exRows : List Row := [exRow1, exRow2, exRow3]

/-- The role keys the engine resolves for the end-to-end example. -/
def exKeys : Keys := ⟨"department", "revenue", "cost", "profit", "created_at", "id"⟩

/-- What the code actually produces on the end-to-end example (the profit
of the January bucket is 60 + (−10) = 50). -/
def exAnalytics : Analytics :=
  ⟨exKeys,
   [⟨"Jan 24", 150, some 50, 202400⟩, ⟨"Feb 24", 200, some 150, 202401⟩],
   [⟨"Marketing", 50, 60, some (-10), some (-20), "#6366f1"⟩,
    ⟨"Sales", 300, 90, some 210, some 70, "#ec4899"⟩],
   [⟨"Sales", 300, 90, some 210, some 70, "#ec4899"⟩,
    ⟨"Marketing", 50, 60, some (-10), some (-20), "#6366f1"⟩],
   [(exRow2, some 150), (exRow1, some 60), (exRow3, some (-10))]⟩

/-- A single-row data set whose (present) profit column holds the
non-numeric string "abc". -/
def nanRow : Row :=
  [("revenue", Value.num 100), ("cost", Value.num 40), ("profit", Value.str "abc"),
   ("department", Value.str "Sales"), ("created_at", Value.str "2024-01-05")]

/-- A sample row none of whose column names contains any role candidate. -/
def blankRow : Row := [("xyz", Value.num 1)]

/-- A row whose revenue cell holds the non-numeric string "abc". -/
def nanRevRow : Row := [("revenue", Value.str "abc"), ("cost", Value.num 40)]

/-- A row whose category cell holds the number 0 (defined and non-empty,
but falsy). -/
def zeroDeptRow : Row := [("department", Value.num 0), ("revenue", Value.num 5)]

/-- A row with no category column at all. -/
def noDeptRow : Row := [("revenue", Value.num 7), ("cost", Value.num 3)]

/-- A row whose category value is the `Object.prototype` property name
"constructor". -/
def protoRow : Row := [("department", Value.str "constructor"), ("revenue", Value.num 100)]

/-- A row with an explicit profit column holding 0 (falsy but defined),
whose derived profit would have been 60. -/
def zeroProfitRow : Row :=
  [("revenue", Value.num 100), ("cost", Value.num 40), ("profit", Value.num 0)]

/-- A row whose profit column holds `null`. -/
def nullProfitRow : Row :=
  [("revenue", Value.num 100), ("cost", Value.num 40), ("profit", Value.null)]

/-!
## Helper lemmas
-/

/-- Characters with equal codepoints are equal. -/
theorem charToNat_injective {a b : Char} (h : a.toNat = b.toNat) : a = b :=
  Char.eq_of_val_eq (UInt32.ext h)

/-- `lexLt` is asymmetric. -/
theorem lexLt_asymm : ∀ a b : List Char, lexLt a b = true → lexLt b a = false := by
  intro a
  induction a with
  | nil =>
    intro b h
    cases b with
    | nil => simp [lexLt] at h
    | cons y ys => simp [lexLt]
  | cons x xs ih =>
    intro b h
    cases b with
    | nil => simp [lexLt] at h
    | cons y ys =>
      by_cases he : x.toNat = y.toNat
      · have he2 : y.toNat = x.toNat := he.symm
        simp [lexLt, he] at h
        simp [lexLt, he2]
        exact ih ys h
      · have he2 : y.toNat ≠ x.toNat := fun e => he e.symm
        simp [lexLt, he] at h
        simp [lexLt, he2]
        omega

/-- Two lists neither of which is `lexLt`-below the other are equal. -/
theorem lexLt_connex : ∀ a b : List Char, lexLt a b = false → lexLt b a = false → a = b := by
  intro a
  induction a with
  | nil =>
    intro b h1 h2
    cases b with
    | nil => rfl
    | cons y ys => simp [lexLt] at h1
  | cons x xs ih =>
    intro b h1 h2
    cases b with
    | nil => simp [lexLt] at h2
    | cons y ys =>
      by_cases he : x.toNat = y.toNat
      · have hxy : x = y := charToNat_injective he
        subst hxy
        simp [lexLt] at h1 h2
        rw [ih ys h1 h2]
      · have he2 : y.toNat ≠ x.toNat := fun e => he e.symm
        simp [lexLt, he] at h1
        simp [lexLt, he2] at h2
        exact absurd (by omega : x.toNat = y.toNat) he

/-- `lexLt` is transitive. -/
theorem lexLt_trans : ∀ a b c : List Char,
    lexLt a b = true → lexLt b c = true → lexLt a c = true := by
  intro a
  induction a with
  | nil =>
    intro b c h1 h2
    cases b with
    | nil => simp [lexLt] at h1
    | cons y ys =>
      cases c with
      | nil => simp [lexLt] at h2
      | cons z zs => simp [lexLt]
  | cons x xs ih =>
    intro b c h1 h2
    cases b with
    | nil => simp [lexLt] at h1
    | cons y ys =>
      cases c with
      | nil => simp [lexLt] at h2
      | cons z zs =>
        by_cases hxy : x.toNat = y.toNat <;> by_cases hyz : y.toNat = z.toNat
        · simp [lexLt, hxy] at h1
          simp [lexLt, hyz] at h2
          simp [lexLt, hxy.trans hyz]
          exact ih ys zs h1 h2
        · simp [lexLt, hxy] at h1
          simp [lexLt, hyz] at h2
          have hne : x.toNat ≠ z.toNat := by omega
          simp [lexLt, hne]
          omega
        · simp [lexLt, hxy] at h1
          simp [lexLt, hyz] at h2
          have hne : x.toNat ≠ z.toNat := by omega
          simp [lexLt, hne]
          omega
        · simp [lexLt, hxy] at h1
          simp [lexLt, hyz] at h2
          have hne : x.toNat ≠ z.toNat := by omega
          simp [lexLt, hne]
          omega

/-- Non-strict `lexLt` comparison is transitive. -/
theorem lexLt_false_trans : ∀ a b c : List Char,
    lexLt a b = false → lexLt b c = false → lexLt a c = false := by
  intro a b c h1 h2
  by_cases h : lexLt a c = true
  · exfalso
    by_cases hba : lexLt b a = true
    · have h3 := lexLt_trans b a c hba h
      rw [h2] at h3
      exact Bool.false_ne_true h3
    · have hab : a = b := lexLt_connex a b h1 (by simpa using hba)
      rw [hab, h2] at h
      exact Bool.false_ne_true h
  · simpa using h

instance : IsTotal MonthlyRec mLE := ⟨fun a b => Int.le_total a.sortKey b.sortKey⟩

instance : IsTrans MonthlyRec mLE := ⟨fun _ _ _ h1 h2 => le_trans h1 h2⟩

instance : IsTotal DeptChartRec eGE := ⟨fun a b => le_total b.expenses a.expenses⟩

instance : IsTrans DeptChartRec eGE := ⟨fun _ _ _ h1 h2 => le_trans h2 h1⟩

instance : IsTotal DeptRec dLE :=
  ⟨fun a b => by
    unfold dLE locLE
    by_cases h1 : lexLt (lowerStr a.name).data (lowerStr b.name).data = true
    · exact Or.inl (Or.inl h1)
    · by_cases h2 : lexLt (lowerStr b.name).data (lowerStr a.name).data = true
      · exact Or.inr (Or.inl h2)
      · have he : (lowerStr a.name).data = (lowerStr b.name).data :=
          lexLt_connex _ _ (by simpa using h1) (by simpa using h2)
        by_cases h3 : lexLt a.name.data b.name.data = true
        · exact Or.inr (Or.inr ⟨he.symm, lexLt_asymm _ _ h3⟩)
        · exact Or.inl (Or.inr ⟨he, by simpa using h3⟩)⟩

instance : IsTrans DeptRec dLE :=
  ⟨fun a b c h1 h2 => by
    unfold dLE locLE at h1 h2 ⊢
    rcases h1 with h1 | ⟨e1, g1⟩
    · rcases h2 with h2 | ⟨e2, _⟩
      · exact Or.inl (lexLt_trans _ _ _ h1 h2)
      · exact Or.inl (by rw [← e2]; exact h1)
    · rcases h2 with h2 | ⟨e2, g2⟩
      · exact Or.inl (by rw [e1]; exact h2)
      · exact Or.inr ⟨e1.trans e2, lexLt_false_trans _ _ _ g1 g2⟩⟩

/-- Adding a row's contribution to a category bucket whose name is not an
`Object.prototype` property adds exactly its revenue to that bucket's
accumulated revenue. -/
theorem bucketRev_addDept (n : String) (rev exp : ℚ) (p : JSNum) (hn : n ∉ protoKeys)
    (acc : List DeptRec) :
    bucketRev (addDept n rev exp p acc) n = bucketRev acc n + rev := by
  induction acc with
  | nil => simp [addDept, bucketRev, List.find?, hn]
  | cons d ds ih =>
    by_cases h : d.name = n
    · have hb : (d.name == n) = true := by simp [h]
      simp [addDept, h, bucketRev, List.find?, hb]
    · have hb : (d.name == n) = false := by simp [h]
      simp only [addDept, if_neg h]
      simp only [bucketRev, List.find?, hb]
      exact ih

/-- Adding a row's contribution to a category bucket whose name is not an
`Object.prototype` property adds exactly its expense to that bucket's
accumulated expenses. -/
theorem bucketExp_addDept (n : String) (rev exp : ℚ) (p : JSNum) (hn : n ∉ protoKeys)
    (acc : List DeptRec) :
    bucketExp (addDept n rev exp p acc) n = bucketExp acc n + exp := by
  induction acc with
  | nil => simp [addDept, bucketExp, List.find?, hn]
  | cons d ds ih =>
    by_cases h : d.name = n
    · have hb : (d.name == n) = true := by simp [h]
      simp [addDept, h, bucketExp, List.find?, hb]
    · have hb : (d.name == n) = false := by simp [h]
      simp only [addDept, if_neg h]
      simp only [bucketExp, List.find?, hb]
      exact ih

/-!
## C1 — the end-to-end example
-/

/-- C1, counterexample: on the spec's three-row example the January bucket
accumulates profit (100−40) + (50−60) = 50, not the 30 the claim states
(the claim's own category profits, 210 and −10, also sum to 200 ≠ 30+150). -/
theorem c1_counterexample :
    (analytics exRows).map (fun a => a.monthlyChartData.map
        (fun m => (m.month, m.revenue, m.profit))) =
      some [("Jan 24", (150 : ℚ), (some 50 : JSNum)), ("Feb 24", 200, some 150)] ∧
    (some (50 : ℚ) : JSNum) ≠ some 30 := by
  constructor
  · decide
  · decide

/-- C1, amended: the pipeline on the example rows produces exactly the
category aggregate Marketing {50, 60, −10, −20%} then Sales
{300, 90, 210, 70%} and the monthly aggregate Jan 24 {150, 50} then
Feb 24 {200, 150}, in those orders (January's profit is 50, not 30). -/
theorem c1_amended : analytics exRows = some exAnalytics := by decide

/-!
## C2 — presence, not truthiness, of the profit column
-/

/-- C2: if the profit cell is present (even holding the falsy 0) the
normalized profit is its numeric coercion; only when it is absent is the
profit derived as revenue − expense. -/
theorem c2_profit_presence : ∀ (keys : Keys) (row : Row),
    (∀ v, getVal row keys.profitKey = some v → profitOf keys row = toNumJS v) ∧
    (getVal row keys.profitKey = none →
      profitOf keys row = some (revOf keys row - expOf keys row)) := by
  intro keys row
  constructor
  · intro v h
    simp [profitOf, h]
  · intro h
    simp [profitOf, h]

/-- C2, witness: a row with an explicit profit of 0 (and derived profit
60) gets profit 0, the coercion of the present cell. -/
theorem c2_witness :
    getVal zeroProfitRow (inferKeys zeroProfitRow).profitKey = some (Value.num 0) ∧
    profitOf (inferKeys zeroProfitRow) zeroProfitRow = toNumJS (Value.num 0) :=
  ⟨by decide,
   (c2_profit_presence (inferKeys zeroProfitRow) zeroProfitRow).1 (Value.num 0) (by decide)⟩

/-!
## C3 — malformed numeric cells
-/

/-- C3, counterexample: a single row whose present profit column holds
"abc" makes both the monthly and the category profit accumulation NaN
(modelled as `none`): the profit coercion has no `|| 0` guard. -/
theorem c3_counterexample :
    (analytics [nanRow]).map (fun a => a.monthlyChartData.map MonthlyRec.profit) =
      some [none] ∧
    (analytics [nanRow]).map (fun a => a.deptChartData.map DeptChartRec.profit) =
      some [none] := by
  constructor
  · decide
  · decide

/-- C3, amended: a non-numeric string in the revenue or expense position
is absorbed as 0, so those accumulations stay finite; but in a present
profit column it coerces to NaN, which the profit accumulations absorb. -/
theorem c3_amended : ∀ (keys : Keys) (row : Row) (s : String), parseNum s = none →
    (getVal row keys.revKey = some (Value.str s) → revOf keys row = 0) ∧
    (getVal row keys.expKey = some (Value.str s) → expOf keys row = 0) ∧
    (getVal row keys.profitKey = some (Value.str s) → profitOf keys row = none) := by
  intro keys row s hs
  refine ⟨fun h => ?_, fun h => ?_, fun h => ?_⟩ <;>
    simp [revOf, expOf, profitOf, numOr0, h, toNumJS, hs]

/-- C3, amended, witness: "abc" does not parse, and a revenue cell
holding "abc" is read as 0. -/
theorem c3_amended_witness :
    parseNum "abc" = none ∧ revOf (inferKeys nanRevRow) nanRevRow = 0 :=
  ⟨by decide, (c3_amended (inferKeys nanRevRow) nanRevRow "abc" (by decide)).1 (by decide)⟩

/-!
## C4 — fallback role keys
-/

/-- C4, counterexample: with no matching column the expense role key is
the literal "expenses", not the role's own name "expense", and the
category role key is "department", not "category"; so the fallback is a
fixed literal per role, not the role's own lowercase name. -/
theorem c4_counterexample :
    inferKeys blankRow = ⟨"department", "revenue", "expenses", "profit", "created_at", "id"⟩ ∧
    ("expenses" : String) ≠ "expense" ∧ ("department" : String) ≠ "category" := by
  refine ⟨by decide, by decide, by decide⟩

/-- C4, amended: resolution never fails — when no candidate of any role
matches, the six role keys are the fixed literals "department",
"revenue", "expenses", "profit", "created_at", "id". -/
theorem c4_amended : ∀ row : Row,
    findKey row ["department", "category", "dept", "group"] = none →
    findKey row ["revenue", "sales", "amount", "total", "price"] = none →
    findKey row ["expense", "cost", "spending"] = none →
    findKey row ["profit", "net", "margin"] = none →
    findKey row ["created_at", "date", "time"] = none →
    findKey row ["id", "order", "name"] = none →
    inferKeys row = ⟨"department", "revenue", "expenses", "profit", "created_at", "id"⟩ := by
  intro row h1 h2 h3 h4 h5 h6
  simp [inferKeys, h1, h2, h3, h4, h5, h6]

/-- C4, amended, witness: the all-defaults resolution on a row with the
single unmatched column "xyz". -/
theorem c4_amended_witness :
    inferKeys blankRow = ⟨"department", "revenue", "expenses", "profit", "created_at", "id"⟩ :=
  c4_amended blankRow (by decide) (by decide) (by decide) (by decide) (by decide) (by decide)

/-!
## C5 — revenue conservation through category bucketing
-/

/-- C5, counterexample: a single row whose category is "constructor" — an
`Object.prototype` property name — is silently dropped by the plain-object
accumulator (`if (!deptStats[dept])` sees the truthy inherited property,
so no own bucket is ever created and `Object.values` omits it).  The
category aggregate comes out empty and its revenue sum is 0, while the
row revenue sum is 100: bucketing does lose this row's revenue. -/
theorem c5_counterexample :
    (analytics [protoRow]).map (fun a =>
        ((a.deptChartData.map DeptChartRec.revenue).sum,
         ([protoRow].map (fun r => revOf a.keys r)).sum)) = some ((0 : ℚ), (100 : ℚ)) ∧
    (0 : ℚ) ≠ 100 := by
  constructor
  · decide
  · decide

/-- Folding one row into `deptStats` under a category name that is not an
`Object.prototype` property adds exactly its revenue to the total revenue
held across all buckets. -/
theorem revenue_sum_addDept (n : String) (rev exp : ℚ) (p : JSNum) (hn : n ∉ protoKeys)
    (acc : List DeptRec) :
    ((addDept n rev exp p acc).map DeptRec.revenue).sum =
      (acc.map DeptRec.revenue).sum + rev := by
  induction acc with
  | nil => simp [addDept, hn]
  | cons d ds ih =>
    by_cases h : d.name = n
    · simp [addDept, h]
      ring
    · simp [addDept, h, ih]
      ring

/-- When no row's normalized category is an `Object.prototype` property
name, the accumulation pass adds exactly the coerced revenue of every row
to the total revenue held across the category buckets. -/
theorem revenue_sum_fold (keys : Keys) : ∀ rows : List Row,
    (∀ r ∈ rows, deptNameOf keys r ∉ protoKeys) →
    ∀ acc : List MonthlyRec × List DeptRec,
      ((rows.foldl (stepRow keys) acc).2.map DeptRec.revenue).sum =
        (acc.2.map DeptRec.revenue).sum + (rows.map (fun r => revOf keys r)).sum := by
  intro rows
  induction rows with
  | nil => intro _ acc; simp
  | cons r rs ih =>
    intro hrows acc
    simp only [List.foldl_cons, List.map_cons, List.sum_cons]
    rw [ih (fun x hx => hrows x (List.mem_cons_of_mem r hx))]
    have hstep : ((stepRow keys acc r).2.map DeptRec.revenue).sum =
        (acc.2.map DeptRec.revenue).sum + revOf keys r := by
      simp only [stepRow]
      exact revenue_sum_addDept _ _ _ _ (hrows r (List.mem_cons_self r rs)) _
    rw [hstep]
    ring

/-- Decorating the sorted category aggregate with margins and colors does
not change the revenues. -/
theorem attachColors_map_revenue : ∀ (i : ℕ) (ds : List DeptRec),
    (attachColors i ds).map DeptChartRec.revenue = ds.map DeptRec.revenue := by
  intro i ds
  induction ds generalizing i with
  | nil => simp [attachColors]
  | cons d t ih => simp [attachColors, ih]

/-- C5, amended: for every non-empty row set in which no row's normalized
category name is an `Object.prototype` property name, the revenues of the
category aggregate sum to exactly the coerced revenues of all input rows
(exact over ℚ, hence within any floating-point tolerance).  Without that
restriction the conservation fails, see the counterexample. -/
theorem c5_amended : ∀ (rows : List Row) (a : Analytics),
    analytics rows = some a →
    (∀ r ∈ rows, deptNameOf a.keys r ∉ protoKeys) →
    (a.deptChartData.map DeptChartRec.revenue).sum =
      (rows.map (fun r => revOf a.keys r)).sum := by
  intro rows a h hrows
  cases rows with
  | nil => simp [analytics] at h
  | cons r0 rest =>
    simp only [analytics, Option.some.injEq] at h
    subst h
    show ((attachColors 0
        (List.insertionSort dLE (aggregates (inferKeys r0) (r0 :: rest)).2)).map
          DeptChartRec.revenue).sum = _
    rw [attachColors_map_revenue]
    have hperm : List.Perm
        ((List.insertionSort dLE (aggregates (inferKeys r0) (r0 :: rest)).2).map DeptRec.revenue)
        (((aggregates (inferKeys r0) (r0 :: rest)).2).map DeptRec.revenue) :=
      (List.perm_insertionSort dLE _).map _
    rw [hperm.sum_eq]
    have hr2 : ∀ r ∈ r0 :: rest, deptNameOf (inferKeys r0) r ∉ protoKeys := hrows
    have := revenue_sum_fold (inferKeys r0) (r0 :: rest) hr2 ([], [])
    simpa [aggregates] using this

/-- C5, witness: the end-to-end example's categories "Sales" and
"Marketing" are ordinary names, and both sums are 350. -/
theorem c5_witness :
    (∀ r ∈ exRows, deptNameOf exAnalytics.keys r ∉ protoKeys) ∧
    (exAnalytics.deptChartData.map DeptChartRec.revenue).sum =
      (exRows.map (fun r => revOf exAnalytics.keys r)).sum :=
  ⟨by decide, c5_amended exRows exAnalytics (by decide) (by decide)⟩

/-!
## C6 — stable category colors
-/

/-- Color attachment assigns position `i + j` of the palette cycle to the
entry at index `j`. -/
theorem attachColors_fill : ∀ (ds : List DeptRec) (i j : ℕ)
    (h : j < (attachColors i ds).length),
    ((attachColors i ds).get ⟨j, h⟩).fill = colorAt (i + j) := by
  intro ds
  induction ds with
  | nil => intro i j h; simp [attachColors] at h
  | cons d t ih =>
    intro i j h
    cases j with
    | zero => simp [attachColors]
    | succ m =>
      have h2 : m < (attachColors (i + 1) t).length := by
        simpa [attachColors] using h
      have : ((attachColors i (d :: t)).get ⟨m + 1, h⟩) =
          ((attachColors (i + 1) t).get ⟨m, h2⟩) := rfl
      rw [this, ih (i + 1) m h2]
      congr 1
      omega

/-- C6: each category's color is `COLORS[i % 8]` for its index `i` in the
name-sorted aggregate, and every entry of the top-5-by-expense view is an
entry of the by-name view — the whole record, its `fill` included, is
carried over unchanged, so re-sorting by expenses leaves each category's
color as assigned. -/
theorem c6_color_stability : ∀ (rows : List Row) (a : Analytics),
    analytics rows = some a →
    (∀ j (h : j < a.deptChartData.length),
        (a.deptChartData.get ⟨j, h⟩).fill = COLORS.getD (j % COLORS.length) "") ∧
    (∀ e ∈ a.expensesByDept, e ∈ a.deptChartData) := by
  intro rows a h
  cases rows with
  | nil => simp [analytics] at h
  | cons r0 rest =>
    simp only [analytics, Option.some.injEq] at h
    subst h
    constructor
    · intro j hj
      have := attachColors_fill _ 0 j hj
      simpa [colorAt] using this
    · intro e he
      have h1 : e ∈ List.insertionSort eGE
          (attachColors 0 (List.insertionSort dLE (aggregates (inferKeys r0) (r0 :: rest)).2)) :=
        List.take_subset _ _ he
      exact (List.mem_insertionSort eGE).mp h1

/-- C6, witness: on the end-to-end example, Sales appears in the top-5
expense view and its full record — color "#ec4899" included — is the one
from the by-name aggregate. -/
theorem c6_witness :
    (⟨"Sales", 300, 90, some 210, some 70, "#ec4899"⟩ : DeptChartRec) ∈
      exAnalytics.deptChartData :=
  (c6_color_stability exRows exAnalytics (by decide)).2 _ (by decide)

/-!
## C7 — chronological monthly order
-/

/-- The 2-digit year numeral always has length 2. -/
theorem twoDigits_length (n : ℕ) (h : n < 100) : (twoDigits n).length = 2 := by
  interval_cases n <;> decide

/-- A real month label is never the "Unknown" sentinel (their lengths
differ: 6 or 3 versus 7). -/
theorem monthLabel_ne_unknown (y m : ℕ) : monthLabel y m ≠ "Unknown" := by
  intro h
  have h2 : (twoDigits (y % 100)).length = 2 :=
    twoDigits_length _ (Nat.mod_lt _ (by norm_num))
  have hsp : (" " : String).length = 1 := by decide
  have hlen : (monthLabel y m).length = (monthNames.getD m "").length + 1 + 2 := by
    simp [monthLabel, String.length_append, h2, hsp] <;> omega
  have hm : (monthNames.getD m "").length = 0 ∨ (monthNames.getD m "").length = 3 := by
    by_cases hlt : m < 12
    · right
      interval_cases m <;> decide
    · left
      have hd : monthNames.getD m "" = "" := by
        apply List.getD_eq_default
        simp only [monthNames, List.length_cons, List.length_nil]
        omega
      rw [hd]
      decide
  have h7 : ("Unknown" : String).length = 7 := by decide
  rw [h, h7] at hlen
  rcases hm with hm | hm <;> omega

/-- Every row's month info has a non-negative sort key, which is 0
whenever the label is "Unknown". -/
theorem monthInfoOf_valid (keys : Keys) (row : Row) :
    0 ≤ (monthInfoOf keys row).2 ∧
      ((monthInfoOf keys row).1 = "Unknown" → (monthInfoOf keys row).2 = 0) := by
  unfold monthInfoOf
  cases hp : parseDate (getVal row keys.dateKey) with
  | none => simp
  | some ym =>
    obtain ⟨y, m⟩ := ym
    constructor
    · simp only
      positivity
    · intro hu
      simp only at hu
      exact absurd hu (monthLabel_ne_unknown y m)

/-- Folding a row into `monthlyData` preserves the bucket invariant:
non-negative sort keys, 0 on the "Unknown" bucket. -/
theorem addMonth_inv : ∀ (acc : List MonthlyRec) (mL : String) (sk : ℤ) (rev : ℚ) (p : JSNum),
    0 ≤ sk → (mL = "Unknown" → sk = 0) →
    (∀ m ∈ acc, 0 ≤ m.sortKey ∧ (m.month = "Unknown" → m.sortKey = 0)) →
    ∀ m ∈ addMonth mL sk rev p acc,
      0 ≤ m.sortKey ∧ (m.month = "Unknown" → m.sortKey = 0) := by
  intro acc
  induction acc with
  | nil =>
    intro mL sk rev p h1 h2 hacc m hm
    simp only [addMonth, List.mem_singleton] at hm
    subst hm
    exact ⟨h1, h2⟩
  | cons d ds ih =>
    intro mL sk rev p h1 h2 hacc m hm
    by_cases h : d.month = mL
    · simp only [addMonth, if_pos h] at hm
      rcases List.mem_cons.mp hm with hm | hm
      · subst hm
        have hd := hacc d (List.mem_cons_self d ds)
        exact ⟨hd.1, fun hu => hd.2 hu⟩
      · exact hacc m (List.mem_cons_of_mem d hm)
    · simp only [addMonth, if_neg h] at hm
      rcases List.mem_cons.mp hm with hm | hm
      · rw [hm]
        exact hacc d (List.mem_cons_self d ds)
      · exact ih mL sk rev p h1 h2
          (fun x hx => hacc x (List.mem_cons_of_mem d hx)) m hm

/-- The monthly accumulation only ever produces buckets satisfying the
invariant. -/
theorem aggregates_monthly_inv (keys : Keys) (rows : List Row) :
    ∀ (acc : List MonthlyRec × List DeptRec),
    (∀ m ∈ acc.1, 0 ≤ m.sortKey ∧ (m.month = "Unknown" → m.sortKey = 0)) →
    ∀ m ∈ (rows.foldl (stepRow keys) acc).1,
      0 ≤ m.sortKey ∧ (m.month = "Unknown" → m.sortKey = 0) := by
  induction rows with
  | nil =>
    intro acc hacc
    simpa using hacc
  | cons r rs ih =>
    intro acc hacc
    simp only [List.foldl_cons]
    apply ih
    show ∀ m ∈ (stepRow keys acc r).1, _
    simp only [stepRow]
    have hmi := monthInfoOf_valid keys r
    exact addMonth_inv acc.1 _ _ _ _ hmi.1 hmi.2 hacc

/-- C7: the emitted monthly aggregate is sorted ascending by `sortKey`;
every bucket's key is non-negative and the "Unknown" bucket's key is 0
(so it sorts first); per row, a parseable date yields
`sortKey = year*100 + zero-based month` under its month label and an
unparseable or absent date yields the single label "Unknown" with
`sortKey = 0`. -/
theorem c7_monthly_sorted : ∀ (rows : List Row) (a : Analytics),
    analytics rows = some a →
    List.Sorted mLE a.monthlyChartData ∧
    (∀ m ∈ a.monthlyChartData, 0 ≤ m.sortKey ∧ (m.month = "Unknown" → m.sortKey = 0)) ∧
    (∀ (keys : Keys) (row : Row) (y mo : ℕ),
      parseDate (getVal row keys.dateKey) = some (y, mo) →
      monthInfoOf keys row = (monthLabel y mo, (y : ℤ) * 100 + (mo : ℤ))) ∧
    (∀ (keys : Keys) (row : Row),
      parseDate (getVal row keys.dateKey) = none → monthInfoOf keys row = ("Unknown", 0)) := by
  intro rows a h
  cases rows with
  | nil => simp [analytics] at h
  | cons r0 rest =>
    simp only [analytics, Option.some.injEq] at h
    subst h
    refine ⟨List.sorted_insertionSort mLE _, ?_, ?_, ?_⟩
    · intro m hm
      have hmem : m ∈ (aggregates (inferKeys r0) (r0 :: rest)).1 :=
        (List.mem_insertionSort mLE).mp hm
      exact aggregates_monthly_inv (inferKeys r0) (r0 :: rest) ([], []) (by simp) m hmem
    · intro keys row y mo hp
      simp [monthInfoOf, hp]
    · intro keys row hp
      simp [monthInfoOf, hp]

/-- C7, witness: the end-to-end example's monthly aggregate is sorted with
non-negative keys. -/
theorem c7_witness :
    List.Sorted mLE exAnalytics.monthlyChartData ∧
    (∀ m ∈ exAnalytics.monthlyChartData,
      0 ≤ m.sortKey ∧ (m.month = "Unknown" → m.sortKey = 0)) :=
  ⟨(c7_monthly_sorted exRows exAnalytics (by decide)).1,
   (c7_monthly_sorted exRows exAnalytics (by decide)).2.1⟩

/-!
## C8 — the column-matching algorithm
-/

/-- `find?` returns `some a` exactly when the list splits as
`l1 ++ a :: l2` with the predicate failing on all of `l1` and holding at
`a` — i.e. `a` is the first hit. -/
theorem find_eq_some_append {α : Type} {p : α → Bool} {l : List α} {a : α} :
    l.find? p = some a ↔
      ∃ l1 l2, l = l1 ++ a :: l2 ∧ p a = true ∧ ∀ x ∈ l1, p x = false := by
  induction l with
  | nil =>
    simp [List.find?]
  | cons b bs ih =>
    by_cases hb : p b = true
    · rw [List.find?_cons_of_pos _ hb]
      constructor
      · intro h
        have hba : b = a := Option.some.inj h
        subst hba
        exact ⟨[], bs, rfl, hb, by simp⟩
      · rintro ⟨l1, l2, hdecomp, hpa, hfail⟩
        cases l1 with
        | nil =>
          simp only [List.nil_append] at hdecomp
          injection hdecomp with h1 h2
          rw [h1]
        | cons c l1t =>
          injection hdecomp with h1 h2
          have hc := hfail c (List.mem_cons_self c l1t)
          rw [← h1, hb] at hc
          exact absurd hc (by simp)
    · have hb' : p b = false := by simpa using hb
      rw [List.find?_cons_of_neg _ hb, ih]
      constructor
      · rintro ⟨l1, l2, hdecomp, hpa, hfail⟩
        refine ⟨b :: l1, l2, by rw [hdecomp, List.cons_append], hpa, ?_⟩
        intro x hx
        rcases List.mem_cons.mp hx with hx | hx
        · rw [hx]; exact hb'
        · exact hfail x hx
      · rintro ⟨l1, l2, hdecomp, hpa, hfail⟩
        cases l1 with
        | nil =>
          simp only [List.nil_append] at hdecomp
          injection hdecomp with h1 h2
          rw [← h1, hb'] at hpa
          exact absurd hpa (by simp)
        | cons c l1t =>
          injection hdecomp with h1 h2
          exact ⟨l1t, l2, h2, hpa, fun x hx => hfail x (List.mem_cons_of_mem c hx)⟩

/-- C8: `findKey` returns `some k` exactly when some candidate `c` is the
first (in priority order) contained in at least one lowercased column
name, and `k` is the first column name (in the row's key iteration order)
whose lowercase form contains `c`. -/
theorem c8_findKey_characterization : ∀ (row : Row) (cands : List String) (k : String),
    findKey row cands = some k ↔
      ∃ c c1 c2, cands = c1 ++ c :: c2 ∧
        (∀ cPrev ∈ c1, ∀ key ∈ rowKeys row, strIncludes (lowerStr key) cPrev = false) ∧
        (∃ key ∈ rowKeys row, strIncludes (lowerStr key) c = true) ∧
        ∃ k1 k2, rowKeys row = k1 ++ k :: k2 ∧ strIncludes (lowerStr k) c = true ∧
          (∀ kPrev ∈ k1, strIncludes (lowerStr kPrev) c = false) := by
  intro row cands k
  have hP : ∀ c : String,
      (((rowKeys row).map lowerStr).any (fun s => strIncludes s c) = true ↔
        ∃ key ∈ rowKeys row, strIncludes (lowerStr key) c = true) := by
    intro c
    simp [List.any_eq_true]
  cases hfind : cands.find? (fun c => ((rowKeys row).map lowerStr).any
      (fun s => strIncludes s c)) with
  | none =>
    have hall := List.find?_eq_none.mp hfind
    simp only [findKey, hfind]
    constructor
    · intro h
      exact absurd h (by simp)
    · rintro ⟨c, c1, c2, hdecomp, hfailc1, hex, hrest⟩
      have hcmem : c ∈ cands := by
        rw [hdecomp]
        exact List.mem_append_right c1 (List.mem_cons_self c c2)
      have hfalse := hall c hcmem
      rw [(hP c).mpr hex] at hfalse
      exact absurd hfalse (by simp)
  | some c0 =>
    simp only [findKey, hfind]
    constructor
    · intro h
      obtain ⟨k1, k2, hkdec, hkinc, hkfail⟩ := find_eq_some_append.mp h
      obtain ⟨d1, d2, hcdec, hc0, hdfail⟩ := find_eq_some_append.mp hfind
      refine ⟨c0, d1, d2, hcdec, ?_, (hP c0).mp hc0, k1, k2, hkdec, hkinc, hkfail⟩
      intro cPrev hcPrev key hkey
      have hfalse := hdfail cPrev hcPrev
      by_contra hne
      have htrue : strIncludes (lowerStr key) cPrev = true := by
        simpa using hne
      rw [(hP cPrev).mpr ⟨key, hkey, htrue⟩] at hfalse
      exact absurd hfalse (by simp)
    · rintro ⟨c, c1, c2, hcdec, hfailc1, hex, k1, k2, hkdec, hkinc, hkfail⟩
      have hc : cands.find? (fun c => ((rowKeys row).map lowerStr).any
          (fun s => strIncludes s c)) = some c := by
        apply find_eq_some_append.mpr
        refine ⟨c1, c2, hcdec, (hP c).mpr hex, ?_⟩
        intro x hx
        by_contra hne
        have htrue : ((rowKeys row).map lowerStr).any (fun s => strIncludes s x) = true := by
          simpa using hne
        obtain ⟨key, hkey, hinc⟩ := (hP x).mp htrue
        rw [hfailc1 x hx key hkey] at hinc
        exact absurd hinc (by simp)
      rw [hfind] at hc
      have hcc : c0 = c := Option.some.inj hc
      subst hcc
      exact find_eq_some_append.mpr ⟨k1, k2, hkdec, hkinc, hkfail⟩

/-- C8, witness: on a row with the single column "Total_Amount" the
revenue candidates resolve via the third candidate "amount" (preceded by
the failing "revenue" and "sales") to the case-preserving column name. -/
theorem c8_witness :
    findKey [("Total_Amount", Value.num 5)] ["revenue", "sales", "amount", "total", "price"] =
      some "Total_Amount" :=
  (c8_findKey_characterization [("Total_Amount", Value.num 5)]
      ["revenue", "sales", "amount", "total", "price"] "Total_Amount").mpr
    ⟨"amount", ["revenue", "sales"], ["total", "price"], rfl,
     by decide, by decide, [], [], rfl, by decide, by decide⟩

/-!
## C9 — category normalization
-/

/-- C9, counterexample: a category cell holding the number 0 is defined
and non-empty, yet the `||`-based fallback collapses it to "Unassigned"
instead of its string coercion "0". -/
theorem c9_counterexample :
    deptNameOf (inferKeys zeroDeptRow) zeroDeptRow = "Unassigned" ∧
    jsToString (Value.num 0) = "0" ∧
    ("Unassigned" : String) ≠ "0" ∧
    (analytics [zeroDeptRow]).map (fun a => a.deptChartData.map DeptChartRec.name) =
      some ["Unassigned"] := by
  refine ⟨by decide, by decide, by decide, by decide⟩

/-- C9, amended: the normalized category is the string coercion of the
category cell except that any falsy cell — absent, null, empty string, or
the number 0 — collapses to "Unassigned"; a row with no category column is
bucketed under "Unassigned" and its revenue and expense still add to that
bucket's sums. -/
theorem c9_amended : ∀ (keys : Keys) (row : Row),
    (∀ v, getVal row keys.deptKey = some v → truthy v = true →
      deptNameOf keys row = jsToString v) ∧
    (∀ v, getVal row keys.deptKey = some v → truthy v = false →
      deptNameOf keys row = "Unassigned") ∧
    (getVal row keys.deptKey = none → deptNameOf keys row = "Unassigned") ∧
    (getVal row keys.deptKey = none → ∀ acc : List MonthlyRec × List DeptRec,
      bucketRev (stepRow keys acc row).2 "Unassigned" =
        bucketRev acc.2 "Unassigned" + revOf keys row ∧
      bucketExp (stepRow keys acc row).2 "Unassigned" =
        bucketExp acc.2 "Unassigned" + expOf keys row) := by
  intro keys row
  refine ⟨fun v h ht => ?_, fun v h ht => ?_, fun h => ?_, fun h acc => ?_⟩
  · simp [deptNameOf, h, ht]
  · simp [deptNameOf, h, ht]
  · simp [deptNameOf, h]
  · have hname : deptNameOf keys row = "Unassigned" := by simp [deptNameOf, h]
    constructor
    · simp only [stepRow, hname]
      exact bucketRev_addDept _ _ _ _ (by decide) _
    · simp only [stepRow, hname]
      exact bucketExp_addDept _ _ _ _ (by decide) _

/-- C9, amended, witness: a row with no category column lands in
"Unassigned" and contributes its revenue there. -/
theorem c9_amended_witness :
    getVal noDeptRow (inferKeys noDeptRow).deptKey = none ∧
    deptNameOf (inferKeys noDeptRow) noDeptRow = "Unassigned" ∧
    bucketRev (stepRow (inferKeys noDeptRow) ([], []) noDeptRow).2 "Unassigned" =
      bucketRev ([] : List DeptRec) "Unassigned" + revOf (inferKeys noDeptRow) noDeptRow :=
  ⟨by decide, (c9_amended _ _).2.2.1 (by decide),
   ((c9_amended (inferKeys noDeptRow) noDeptRow).2.2.2 (by decide) ([], [])).1⟩

/-!
## C10 — a present null profit cell
-/

/-- C10: a profit cell holding `null` counts as present (the code checks
against `undefined` only), so the profit is `Number(null)` = 0, not the
derived revenue − expense. -/
theorem c10_null_profit : ∀ (keys : Keys) (row : Row),
    getVal row keys.profitKey = some Value.null → profitOf keys row = some 0 := by
  intro keys row h
  simp [profitOf, h, toNumJS]

/-- C10, witness: a row with a null profit cell (derived profit would be
60) gets profit 0. -/
theorem c10_witness :
    getVal nullProfitRow (inferKeys nullProfitRow).profitKey = some Value.null ∧
    profitOf (inferKeys nullProfitRow) nullProfitRow = some 0 :=
  ⟨by decide, c10_null_profit (inferKeys nullProfitRow) nullProfitRow (by decide)⟩

end FinanceDept
